import Mathlib

/-!
Shallow embedding of the monitor arrangement engine of src/src/ui.rs
(struct MangoDisplay and the LayoutCanvas snap/layout logic).

Modelling conventions:
* Rust i32 positions and usize indices become Int and Nat; no claim in
  scope depends on 32-bit wraparound, and all concrete inputs are far
  from the i32 bounds.
* Rust f32 scale factors become Rat.  Every scale value a claim touches
  (1.0, 2.0 and the 0.1 threshold) is exactly representable, and the
  grid rounding (x as f32 / 10.0).round() is exact on f32 for the
  magnitudes involved (|x| well below 2^22), so the rational model agrees
  with the float code on the whole modelled range.
* The Output and OutputMode types live in crate::backend (not part of
  src/); their fields are taken exactly as ui.rs uses them and as
  section 3 of the spec lists them.
* The iced canvas Cache (a render cache) and AppSettings carry no
  arrangement data and are omitted from the state; cache.clear() calls
  are no-ops of the model.
* wlr_randr_apply / wlr_randr_save receive the outputs by immutable
  borrow, so they cannot mutate the arrangement; their Result values are
  supplied to the update function as an environment.
-/

/-- One supported resolution/refresh combination (backend OutputMode as
used by ui.rs and spec section 3). -/
structure OutputMode where
  width : Int
  height : Int
  refresh_rate : Rat
  current : Bool
  preferred : Bool
deriving DecidableEq, Repr

/-- One managed display (backend Output as used by ui.rs and spec
section 3). -/
structure Output where
  name : String
  description : String
  physical_size : String
  position : Int × Int
  scale : Rat
  transform : String
  enabled : Bool
  modes : List OutputMode
deriving DecidableEq, Repr

/-- Placeholder used for the List.getD reads of this model.  Rust
indexing panics out of range; every theorem below restricts to in-range
indices, where getD never returns this value. -/
def defaultOutput : Output :=
  ⟨"", "", "", (0, 0), 1, "normal", true, []⟩

/-- The fallback mode synthesized by the unwrap_or calls of the canvas
code (ui.rs lines 451, 478, 509, 578, 607). -/
def defaultCanvasMode : OutputMode :=
  ⟨800, 600, 60, true, false⟩

/-- Current-mode lookup: find(|m| m.current).unwrap_or(defaultCanvasMode),
the pattern of every canvas-side mode access in ui.rs. -/
def currentMode (o : Output) : OutputMode :=
  (o.modes.find? (fun m => m.current)).getD defaultCanvasMode

/-- Truncating division of an integer by a rational scale, toward zero:
Rust (a as f32 / scale) as i32 (saturation at the i32 bounds is outside
the modelled range).  a / (num / den) = a * den / num; written on
natAbs components so that the kernel can evaluate it.  scaleDiv_eq_floor
below gives the usual floor-of-division reading on the nonnegative
range. -/
def scaleDiv (a : Int) (s : Rat) : Int :=
  let n : Int := a * (s.den : Int)
  let q : Int := (n.natAbs / s.num.natAbs : Nat)
  if 0 ≤ n * s.num then q else -q

/-- Absolute value as Rust i32::abs (overflow at i32::MIN is outside the
modelled range). -/
def iabs (a : Int) : Int :=
  if a < 0 then -a else a

/-- LayoutCanvas::logical_size, ui.rs lines 432-439. -/
def logical_size (o : Output) (cm : OutputMode) : Int × Int :=
  let w := scaleDiv cm.width o.scale
  let h := scaleDiv cm.height o.scale
  if o.transform = "90" ∨ o.transform = "270" ∨
      o.transform = "flipped-90" ∨ o.transform = "flipped-270" then
    (h, w)
  else
    (w, h)

/-- Logical height of an output under its current mode. -/
def logicalH (o : Output) : Int :=
  (logical_size o (currentMode o)).2

/-- outputs.iter().map(|o| o.position.0).min().unwrap_or(0),
ui.rs line 72. -/
def minXpos : List Output → Int
  | [] => 0
  | o :: os => (os.map (fun p => p.position.1)).foldl min o.position.1

/-- outputs.iter().map(|o| o.position.1).min().unwrap_or(0),
ui.rs line 73. -/
def minYpos : List Output → Int
  | [] => 0
  | o :: os => (os.map (fun p => p.position.2)).foldl min o.position.2

/-- The uniform shift applied by the normalizer loop, ui.rs lines 80-83. -/
def shiftOut (dx dy : Int) (o : Output) : Output :=
  { o with position := (o.position.1 + dx, o.position.2 + dy) }

/-- MangoDisplay::normalize_positions restricted to the outputs list,
ui.rs lines 71-91 (the input-field refresh is handled by the state-level
version below). -/
def normalize_positions (outs : List Output) : List Output :=
  let min_x := minXpos outs
  let min_y := minYpos outs
  let offset_x := if min_x < 0 then -min_x else 0
  let offset_y := if min_y < 0 then -min_y else 0
  if offset_x > 0 ∨ offset_y > 0 then
    outs.map (shiftOut offset_x offset_y)
  else
    outs

/-- Digit run to a natural number, most significant first. -/
def digitsToNat (l : List Char) : Nat :=
  l.foldl (fun acc c => acc * 10 + (c.toNat - 48)) 0

/-- Rust i32::from_str: optional sign, a nonempty digit run, and a range
check against the i32 bounds. -/
def parseI32 (s : String) : Option Int :=
  let p : Int × List Char :=
    match s.data with
    | '+' :: rest => (1, rest)
    | '-' :: rest => (-1, rest)
    | cs => (1, cs)
  if p.2 = [] ∨ ¬ (p.2.all Char.isDigit) then none
  else
    let v : Int := p.1 * (digitsToNat p.2 : Int)
    if -(2 ^ 31) ≤ v ∧ v ≤ 2 ^ 31 - 1 then some v else none

/-- Rust f32::from_str restricted to plain decimal literals (optional
sign, digits, optional dot and fraction digits).  The exotic float forms
(exponents, inf, NaN) and f32 rounding are not modelled; no claim in
scope depends on scale-string parsing. -/
def parseDecimal (s : String) : Option Rat :=
  let p : Rat × List Char :=
    match s.data with
    | '+' :: rest => (1, rest)
    | '-' :: rest => (-1, rest)
    | cs => (1, cs)
  let ip := p.2.takeWhile (fun c => c ≠ '.')
  let rest := p.2.dropWhile (fun c => c ≠ '.')
  match rest with
  | [] =>
    if ip ≠ [] ∧ ip.all Char.isDigit then some (p.1 * (digitsToNat ip : Rat))
    else none
  | _ :: fp =>
    if (ip ≠ [] ∨ fp ≠ []) ∧ ip.all Char.isDigit ∧ fp.all Char.isDigit then
      some (p.1 * ((digitsToNat ip : Rat) + (digitsToNat fp : Rat) / (10 ^ fp.length)))
    else none

/-- format!("{:.2}", scale), ui.rs line 67, on the rational scale model:
round q to hundredths (nearest, ties to even, as the Rust formatter
rounds) and print with two decimals.  Written on the numerator and
denominator so that the kernel can evaluate it. -/
def formatScale (q : Rat) : String :=
  let n : Int := q.num * 100
  let d : Int := (q.den : Int)
  let fl : Int := n / d
  let rem : Int := n % d
  let c : Int :=
    if 2 * rem < d then fl
    else if d < 2 * rem then fl + 1
    else if fl % 2 = 0 then fl else fl + 1
  let sign := if c < 0 then "-" else ""
  let a := c.natAbs
  let frac := a % 100
  sign ++ toString (a / 100) ++ "." ++ (if frac < 10 then "0" else "") ++ toString frac

/-- The MangoDisplay state, ui.rs lines 33-41 (layout_cache and settings
omitted, see the header note). -/
structure MangoDisplay where
  outputs : List Output
  selected_output_idx : Option Nat
  x_input : String
  y_input : String
  scale_input : String
deriving DecidableEq, Repr

/-- The update messages, ui.rs lines 13-31. -/
inductive Message where
  | MonitorClicked (idx : Nat)
  | MonitorPositioned (idx : Nat) (x y : Int)
  | XChanged (val : String)
  | YChanged (val : String)
  | XInc
  | XDec
  | YInc
  | YDec
  | ScaleChanged (val : String)
  | ScaleInc
  | ScaleDec
  | EnabledToggled (val : Bool)
  | ResolutionSelected (res_idx : Nat)
  | TransformSelected (tr : String)
  | ApplyClicked
  | SaveClicked
deriving DecidableEq, Repr

/-- Results of the two external collaborator calls reachable from update
(wlr_randr_apply and wlr_randr_save); they take the outputs by immutable
borrow, so only their Result value can matter to the state. -/
structure Env where
  applyResult : Except String Unit
  saveResult : Except String Unit

/-- In-place mutation of outputs[idx].  Rust indexing panics when idx is
out of range; that branch is unreachable in the application (the
selection is always in range) and is a no-op here, and every theorem
below restricts to in-range indices. -/
def modifyOut (outs : List Output) (idx : Nat) (f : Output → Output) : List Output :=
  if h : idx < outs.length then outs.set idx (f (outs.get ⟨idx, h⟩)) else outs

/-- MangoDisplay::update_inputs_for_selection, ui.rs lines 62-69. -/
def update_inputs_for_selection (st : MangoDisplay) : MangoDisplay :=
  match st.selected_output_idx with
  | none => st
  | some idx =>
    if h : idx < st.outputs.length then
      let out := st.outputs.get ⟨idx, h⟩
      { st with
        x_input := toString out.position.1
        y_input := toString out.position.2
        scale_input := formatScale out.scale }
    else st

/-- MangoDisplay::normalize_positions on the full state, ui.rs lines
71-91: shift the outputs and, exactly when something changed, refresh
the input fields. -/
def normalizePositionsApp (st : MangoDisplay) : MangoDisplay :=
  let min_x := minXpos st.outputs
  let min_y := minYpos st.outputs
  let offset_x := if min_x < 0 then -min_x else 0
  let offset_y := if min_y < 0 then -min_y else 0
  if offset_x > 0 ∨ offset_y > 0 then
    update_inputs_for_selection
      { st with outputs := st.outputs.map (shiftOut offset_x offset_y) }
  else
    st

/-- The mode re-selection of the ResolutionSelected arm, ui.rs lines
188-193: clear current on every mode, then set it on modes[res_idx]
when res_idx is in range. -/
def reselectModes (res_idx : Nat) (o : Output) : Output :=
  let ms := o.modes.map (fun mo => { mo with current := false })
  { o with modes :=
      if h : res_idx < ms.length then
        ms.set res_idx { ms.get ⟨res_idx, h⟩ with current := true }
      else ms }

/-- MangoDisplay::update, ui.rs lines 93-219.  The returned Task is
always Task::none() and is dropped from the model. -/
def MangoDisplay.update (env : Env) (st : MangoDisplay) (m : Message) : MangoDisplay :=
  match m with
  | .MonitorClicked idx =>
    update_inputs_for_selection { st with selected_output_idx := some idx }
  | .MonitorPositioned idx x y =>
    let st1 := { st with outputs := modifyOut st.outputs idx (fun o => { o with position := (x, y) }) }
    if some idx = st1.selected_output_idx then update_inputs_for_selection st1 else st1
  | .XChanged val =>
    let st1 := { st with x_input := val }
    match st1.selected_output_idx, parseI32 val with
    | some idx, some v0 =>
      let v := if v0 < 0 then 0 else v0
      { st1 with outputs := modifyOut st1.outputs idx (fun o => { o with position := (v, o.position.2) }) }
    | _, _ => st1
  | .YChanged val =>
    let st1 := { st with y_input := val }
    match st1.selected_output_idx, parseI32 val with
    | some idx, some v0 =>
      let v := if v0 < 0 then 0 else v0
      { st1 with outputs := modifyOut st1.outputs idx (fun o => { o with position := (o.position.1, v) }) }
    | _, _ => st1
  | .XInc =>
    match st.selected_output_idx with
    | some idx =>
      update_inputs_for_selection
        { st with outputs := modifyOut st.outputs idx (fun o => { o with position := (o.position.1 + 1, o.position.2) }) }
    | none => st
  | .XDec =>
    match st.selected_output_idx with
    | some idx =>
      if (st.outputs.getD idx defaultOutput).position.1 > 0 then
        update_inputs_for_selection
          { st with outputs := modifyOut st.outputs idx (fun o => { o with position := (o.position.1 - 1, o.position.2) }) }
      else st
    | none => st
  | .YInc =>
    match st.selected_output_idx with
    | some idx =>
      update_inputs_for_selection
        { st with outputs := modifyOut st.outputs idx (fun o => { o with position := (o.position.1, o.position.2 + 1) }) }
    | none => st
  | .YDec =>
    match st.selected_output_idx with
    | some idx =>
      if (st.outputs.getD idx defaultOutput).position.2 > 0 then
        update_inputs_for_selection
          { st with outputs := modifyOut st.outputs idx (fun o => { o with position := (o.position.1, o.position.2 - 1) }) }
      else st
    | none => st
  | .ScaleChanged val =>
    let st1 := { st with scale_input := val }
    match st1.selected_output_idx, parseDecimal val with
    | some idx, some v =>
      if v > 1 / 10 then
        { st1 with outputs := modifyOut st1.outputs idx (fun o => { o with scale := v }) }
      else st1
    | _, _ => st1
  | .ScaleInc =>
    match st.selected_output_idx with
    | some idx =>
      update_inputs_for_selection
        { st with outputs := modifyOut st.outputs idx (fun o => { o with scale := o.scale + 1 / 20 }) }
    | none => st
  | .ScaleDec =>
    match st.selected_output_idx with
    | some idx =>
      if (st.outputs.getD idx defaultOutput).scale > 1 / 10 then
        update_inputs_for_selection
          { st with outputs := modifyOut st.outputs idx (fun o => { o with scale := o.scale - 1 / 20 }) }
      else st
    | none => st
  | .EnabledToggled val =>
    match st.selected_output_idx with
    | some idx =>
      { st with outputs := modifyOut st.outputs idx (fun o => { o with enabled := val }) }
    | none => st
  | .ResolutionSelected res_idx =>
    match st.selected_output_idx with
    | some idx =>
      { st with outputs := modifyOut st.outputs idx (reselectModes res_idx) }
    | none => st
  | .TransformSelected tr =>
    match st.selected_output_idx with
    | some idx =>
      { st with outputs := modifyOut st.outputs idx (fun o => { o with transform := tr }) }
    | none => st
  | .ApplyClicked =>
    let st1 := normalizePositionsApp st
    match env.applyResult with
    | .error _ => st1
    | .ok _ => st1
  | .SaveClicked =>
    let st1 := normalizePositionsApp st
    match env.saveResult with
    | .error _ => st1
    | .ok _ => st1

/-- snap_threshold, ui.rs line 570. -/
def snapThreshold : Int := 40

/-- The running snap state of the candidate loop: snapped_x, snapped_y,
min_dist_x, min_dist_y (ui.rs lines 587-590). -/
structure SnapAcc where
  snapped_x : Int
  snapped_y : Int
  min_dist_x : Int
  min_dist_y : Int
deriving DecidableEq, Repr

/-- One iteration of the candidate loop of ui.rs lines 597-655: evaluate
the three x alignment offers under the y_overlap gate and the three y
offers under the x_overlap gate, sequentially against the running
minimum distances. -/
def snapOne (w h my_left my_right my_top my_bottom : Int) (other : Output)
    (acc : SnapAcc) : SnapAcc :=
  let ocm := currentMode other
  let owh := logical_size other ocm
  let other_left := other.position.1
  let other_right := other.position.1 + owh.1
  let other_top := other.position.2
  let other_bottom := other.position.2 + owh.2
  let x_overlap := my_left < other_right + snapThreshold ∧
      my_right > other_left - snapThreshold
  let y_overlap := my_top < other_bottom + snapThreshold ∧
      my_bottom > other_top - snapThreshold
  let acc :=
    if y_overlap then
      let acc := if iabs (my_left - other_right) < acc.min_dist_x then
          { acc with min_dist_x := iabs (my_left - other_right), snapped_x := other_right }
        else acc
      let acc := if iabs (my_right - other_left) < acc.min_dist_x then
          { acc with min_dist_x := iabs (my_right - other_left), snapped_x := other_left - w }
        else acc
      let acc := if iabs (my_left - other_left) < acc.min_dist_x then
          { acc with min_dist_x := iabs (my_left - other_left), snapped_x := other_left }
        else acc
      acc
    else acc
  if x_overlap then
    let acc := if iabs (my_top - other_bottom) < acc.min_dist_y then
        { acc with min_dist_y := iabs (my_top - other_bottom), snapped_y := other_bottom }
      else acc
    let acc := if iabs (my_bottom - other_top) < acc.min_dist_y then
        { acc with min_dist_y := iabs (my_bottom - other_top), snapped_y := other_top - h }
      else acc
    let acc := if iabs (my_top - other_top) < acc.min_dist_y then
        { acc with min_dist_y := iabs (my_top - other_top), snapped_y := other_top }
      else acc
    acc
  else acc

/-- Nearest multiple of 10, ties away from zero:
(x as f32 / 10.0).round() as i32 * 10, ui.rs lines 658 and 661 (exact on
the modelled range, see the header note). -/
def gridRound (x : Int) : Int :=
  if 0 ≤ x then (x + 5) / 10 * 10 else -((-x + 5) / 10 * 10)

/-- The snap computation of the drag handler on an already clamped
provisional position, ui.rs lines 570-665: candidate loop over the other
outputs, per-axis grid fallback, final clamp to nonnegative. -/
def snapCore (outputs : List Output) (idx : Nat) (new_x new_y : Int) : Int × Int :=
  let out := outputs.getD idx defaultOutput
  let cm := currentMode out
  let wh := logical_size out cm
  let my_left := new_x
  let my_right := new_x + wh.1
  let my_top := new_y
  let my_bottom := new_y + wh.2
  let init : SnapAcc := ⟨new_x, new_y, snapThreshold, snapThreshold⟩
  let acc := outputs.enum.foldl
    (fun acc p =>
      if p.1 = idx then acc
      else snapOne wh.1 wh.2 my_left my_right my_top my_bottom p.2 acc)
    init
  let sx := if acc.snapped_x = new_x then gridRound acc.snapped_x else acc.snapped_x
  let sy := if acc.snapped_y = new_y then gridRound acc.snapped_y else acc.snapped_y
  let sx := if sx < 0 then 0 else sx
  let sy := if sy < 0 then 0 else sy
  (sx, sy)

/-- Clamp to nonnegative, ui.rs lines 567-568. -/
def clamp0 (x : Int) : Int :=
  if x < 0 then 0 else x

/-- The full position computation of the CursorMoved drag branch given
the provisional (pointer-derived) logical position, ui.rs lines 565-669:
clamp to nonnegative, then snap. -/
def snapMove (outputs : List Output) (idx : Nat) (nx ny : Int) : Int × Int :=
  snapCore outputs idx (clamp0 nx) (clamp0 ny)

/-- The accumulator loop of LayoutCanvas::calculate_layout, ui.rs lines
442-463: running sum of logical widths and running maximum of logical
heights started at 1080. -/
def totalMax (outs : List Output) : Int × Int :=
  outs.foldl
    (fun acc o =>
      let wh := logical_size o (currentMode o)
      (acc.1 + wh.1, if wh.2 > acc.2 then wh.2 else acc.2))
    (0, 1080)

/-- span_x of calculate_layout, ui.rs line 465 (exact rational image of
the f32 expression on the modelled range). -/
def spanX (outs : List Output) : Rat :=
  max (((totalMax outs).1 : Rat) * (3 / 2)) 4000

/-- span_y of calculate_layout, ui.rs line 466. -/
def spanY (outs : List Output) : Rat :=
  max (((totalMax outs).2 : Rat) * (5 / 2)) 3000

/-! Concrete fixtures used by the example and counterexample theorems. -/

/-- A 1920 by 1080 at 60 Hz current mode. -/
def mode1920 : OutputMode := ⟨1920, 1080, 60, true, false⟩

/-- Output fixture: scale 1, transform normal, the 1920 by 1080 mode. -/
def mkOut (nm : String) (px py : Int) : Output :=
  ⟨nm, "", "", (px, py), 1, "normal", true, [mode1920]⟩

/-- Output A of the snap scenario, at the origin. -/
def outA : Output := mkOut "DP-1" 0 0

/-- Output B of the snap scenario, at (1920, 0). -/
def outB : Output := mkOut "DP-2" 1920 0

/-- An output whose position has strictly positive coordinates. -/
def outFive : Output := mkOut "DP-3" 5 5

/-- An output at a negative x coordinate. -/
def outNeg : Output := mkOut "DP-4" (-5) 3

/-- An output whose current mode is 1280 by 720 (logical height 720). -/
def out720 : Output :=
  ⟨"HDMI-1", "", "", (0, 0), 1, "normal", true, [⟨1280, 720, 60, true, false⟩]⟩

/-- An output with transform 90. -/
def outRot90 : Output :=
  ⟨"DP-5", "", "", (0, 0), 1, "90", true, [mode1920]⟩

/-- An output with scale 2. -/
def outScale2 : Output :=
  ⟨"DP-6", "", "", (0, 0), 2, "normal", true, [mode1920]⟩

/-- Environment in which both collaborator calls succeed. -/
def envOk : Env := ⟨Except.ok (), Except.ok ()⟩

/-- Environment in which both collaborator calls fail. -/
def envErr : Env := ⟨Except.error "boom", Except.error "boom"⟩

/-! Helper lemmas about the normalizer. -/

/-- Folding min over a uniformly shifted list shifts the fold. -/
lemma foldl_min_map_add (xs : List Int) (a c : Int) :
    (xs.map (fun x => x + c)).foldl min (a + c) = xs.foldl min a + c := by
  induction xs generalizing a with
  | nil => rfl
  | cons x xs ih =>
    simp only [List.map_cons, List.foldl_cons, min_add_add_right]
    exact ih (min a x)

/-- The x minimum of a uniformly shifted nonempty arrangement. -/
lemma minXpos_map_shift (outs : List Output) (dx dy : Int) (h : outs ≠ []) :
    minXpos (outs.map (shiftOut dx dy)) = minXpos outs + dx := by
  cases outs with
  | nil => exact absurd rfl h
  | cons o os =>
    have h1 : minXpos ((o :: os).map (shiftOut dx dy)) =
        ((os.map (fun p => p.position.1)).map (fun x => x + dx)).foldl min
          (o.position.1 + dx) := by
      simp only [List.map_cons, minXpos, List.map_map, shiftOut]
      congr 1
    rw [h1, foldl_min_map_add]
    rfl

/-- The y minimum of a uniformly shifted nonempty arrangement. -/
lemma minYpos_map_shift (outs : List Output) (dx dy : Int) (h : outs ≠ []) :
    minYpos (outs.map (shiftOut dx dy)) = minYpos outs + dy := by
  cases outs with
  | nil => exact absurd rfl h
  | cons o os =>
    have h1 : minYpos ((o :: os).map (shiftOut dx dy)) =
        ((os.map (fun p => p.position.2)).map (fun x => x + dy)).foldl min
          (o.position.2 + dy) := by
      simp only [List.map_cons, minYpos, List.map_map, shiftOut]
      congr 1
    rw [h1, foldl_min_map_add]
    rfl

/-- The normalizer leaves an arrangement with nonnegative minima alone. -/
lemma normalize_of_nonneg (l : List Output) (h1 : 0 ≤ minXpos l) (h2 : 0 ≤ minYpos l) :
    normalize_positions l = l := by
  simp only [normalize_positions]
  rw [if_neg (not_lt.mpr h1), if_neg (not_lt.mpr h2)]
  simp

/-- After the normalizer, the x minimum is the clamped previous minimum. -/
lemma minXpos_normalize (outs : List Output) :
    minXpos (normalize_positions outs) = max (minXpos outs) 0 := by
  rcases eq_or_ne outs [] with h | h
  · subst h; rfl
  · simp only [normalize_positions]
    by_cases hx : minXpos outs < 0 <;> by_cases hy : minYpos outs < 0
    · rw [if_pos hx, if_pos hy, if_pos (Or.inl (by omega : -minXpos outs > 0)),
        minXpos_map_shift outs _ _ h]
      omega
    · rw [if_pos hx, if_neg hy, if_pos (Or.inl (by omega : -minXpos outs > 0)),
        minXpos_map_shift outs _ _ h]
      omega
    · rw [if_neg hx, if_pos hy, if_pos (Or.inr (by omega : -minYpos outs > 0)),
        minXpos_map_shift outs _ _ h]
      omega
    · rw [if_neg hx, if_neg hy, if_neg (by omega : ¬ ((0 : Int) > 0 ∨ (0 : Int) > 0))]
      omega

/-- After the normalizer, the y minimum is the clamped previous minimum. -/
lemma minYpos_normalize (outs : List Output) :
    minYpos (normalize_positions outs) = max (minYpos outs) 0 := by
  rcases eq_or_ne outs [] with h | h
  · subst h; rfl
  · simp only [normalize_positions]
    by_cases hx : minXpos outs < 0 <;> by_cases hy : minYpos outs < 0
    · rw [if_pos hx, if_pos hy, if_pos (Or.inl (by omega : -minXpos outs > 0)),
        minYpos_map_shift outs _ _ h]
      omega
    · rw [if_pos hx, if_neg hy, if_pos (Or.inl (by omega : -minXpos outs > 0)),
        minYpos_map_shift outs _ _ h]
      omega
    · rw [if_neg hx, if_pos hy, if_pos (Or.inr (by omega : -minYpos outs > 0)),
        minYpos_map_shift outs _ _ h]
      omega
    · rw [if_neg hx, if_neg hy, if_neg (by omega : ¬ ((0 : Int) > 0 ∨ (0 : Int) > 0))]
      omega

/-- Shifting by zero on both axes is the identity. -/
lemma map_shift_zero (l : List Output) : l.map (shiftOut 0 0) = l := by
  have h : shiftOut 0 0 = id := by funext o; simp [shiftOut]
  rw [h, List.map_id]

/-- normalize_positions always acts as one uniform shift on the list. -/
lemma normalize_positions_shape (outs : List Output) :
    ∃ dx dy, normalize_positions outs = outs.map (shiftOut dx dy) := by
  simp only [normalize_positions]
  by_cases hC : (if minXpos outs < 0 then -minXpos outs else 0) > 0 ∨
      (if minYpos outs < 0 then -minYpos outs else 0) > 0
  · rw [if_pos hC]; exact ⟨_, _, rfl⟩
  · rw [if_neg hC]; exact ⟨0, 0, (map_shift_zero outs).symm⟩

/-- getD of a mapped list at an in-range index. -/
lemma getD_map_lt (f : Output → Output) (l : List Output) (i : Nat) (d : Output)
    (h : i < l.length) : (l.map f).getD i d = f (l.getD i d) := by
  rw [List.getD_eq_getElem?_getD, List.getD_eq_getElem?_getD, List.getElem?_map,
    List.getElem?_eq_getElem h]
  rfl

/-- Claim C1 (amended): after normalize_positions on a non-empty
arrangement, the minimum of position.x is the previous minimum clamped
to 0 (max with 0), and likewise for position.y.  The minimum therefore
becomes 0 exactly when the previous minimum was at most 0; a strictly
positive minimum is kept, so the minimum is not 0 in general. -/
theorem normalize_min_is_clamped_min (outs : List Output) (h : outs ≠ []) :
    minXpos (normalize_positions outs) = max (minXpos outs) 0 ∧
    minYpos (normalize_positions outs) = max (minYpos outs) 0 :=
  ⟨minXpos_normalize outs, minYpos_normalize outs⟩

/-- Witness for C1: the amended statement evaluated on the concrete
one-output arrangement at (-5, 3). -/
theorem normalize_min_is_clamped_min_witness :
    minXpos (normalize_positions [outNeg]) = max (minXpos [outNeg]) 0 ∧
    minYpos (normalize_positions [outNeg]) = max (minYpos [outNeg]) 0 :=
  normalize_min_is_clamped_min [outNeg] (by decide)

/-- Counterexample to C1 as stated: the arrangement with the single
output at (5, 5) is non-empty, yet after normalize_positions the minima
are 5 and 5, not 0. -/
theorem normalize_min_zero_counterexample :
    ¬ (minXpos (normalize_positions [outFive]) = 0 ∧
       minYpos (normalize_positions [outFive]) = 0) := by
  decide

/-- Claim C8: normalize_positions is idempotent: a second run returns
its input unchanged. -/
theorem normalize_positions_idempotent (outs : List Output) :
    normalize_positions (normalize_positions outs) = normalize_positions outs := by
  refine normalize_of_nonneg _ ?_ ?_
  · rw [minXpos_normalize]; exact le_max_right _ _
  · rw [minYpos_normalize]; exact le_max_right _ _

/-- Claim C10: normalize_positions preserves the relative layout: the
pairwise differences of the x and of the y coordinates are unchanged
for every pair of in-range indices. -/
theorem normalize_preserves_relative_layout (outs : List Output) (i j : Nat)
    (d : Output) (hi : i < outs.length) (hj : j < outs.length) :
    ((normalize_positions outs).getD i d).position.1 -
        ((normalize_positions outs).getD j d).position.1 =
      (outs.getD i d).position.1 - (outs.getD j d).position.1 ∧
    ((normalize_positions outs).getD i d).position.2 -
        ((normalize_positions outs).getD j d).position.2 =
      (outs.getD i d).position.2 - (outs.getD j d).position.2 := by
  obtain ⟨dx, dy, hshape⟩ := normalize_positions_shape outs
  rw [hshape, getD_map_lt _ _ _ _ hi, getD_map_lt _ _ _ _ hj]
  simp [shiftOut]

/-- Witness for C10: the pairwise differences of the concrete two-output
arrangement with a negative coordinate are preserved. -/
theorem normalize_preserves_relative_layout_witness :
    ((normalize_positions [outNeg, outB]).getD 0 defaultOutput).position.1 -
        ((normalize_positions [outNeg, outB]).getD 1 defaultOutput).position.1 =
      (([outNeg, outB]).getD 0 defaultOutput).position.1 -
        (([outNeg, outB]).getD 1 defaultOutput).position.1 ∧
    ((normalize_positions [outNeg, outB]).getD 0 defaultOutput).position.2 -
        ((normalize_positions [outNeg, outB]).getD 1 defaultOutput).position.2 =
      (([outNeg, outB]).getD 0 defaultOutput).position.2 -
        (([outNeg, outB]).getD 1 defaultOutput).position.2 :=
  normalize_preserves_relative_layout [outNeg, outB] 0 1 defaultOutput
    (by decide) (by decide)

/-- State fixture whose only output sits at a negative x coordinate. -/
def stNeg : MangoDisplay := ⟨[outNeg], none, "", "", ""⟩

/-- State fixture with one selected output at (5, 7). -/
def stFive : MangoDisplay := ⟨[mkOut "DP-7" 5 7], some 0, "5", "7", "1.00"⟩

/-- Claim C2 (amended): the ApplyClicked and SaveClicked handlers first
normalize the arrangement and the collaborator result has no influence
on the in-memory state: for every environment, the state after the
handler is exactly the normalized pre-state, whether the call succeeds
or fails.  The failure itself causes no extra mutation, but a
pre-state with negative coordinates is mutated by the normalization
even when the call fails. -/
theorem apply_save_state_is_normalized_prestate (env : Env) (st : MangoDisplay) :
    MangoDisplay.update env st Message.ApplyClicked = normalizePositionsApp st ∧
    MangoDisplay.update env st Message.SaveClicked = normalizePositionsApp st := by
  obtain ⟨a, sres⟩ := env
  constructor
  · cases a <;> rfl
  · cases sres <;> rfl

/-- Counterexample to C2 as stated: with the output at (-5, 3) and a
failing apply collaborator, the ApplyClicked handler still mutates the
arrangement (the position becomes (0, 3)). -/
theorem apply_failure_counterexample :
    MangoDisplay.update envErr stNeg Message.ApplyClicked ≠ stNeg ∧
    ((MangoDisplay.update envErr stNeg Message.ApplyClicked).outputs.getD 0
        defaultOutput).position = (0, 3) ∧
    (stNeg.outputs.getD 0 defaultOutput).position = (-5, 3) := by
  decide

/-- getD after set at the written in-range index. -/
lemma getD_set_self (l : List Output) (i : Nat) (v d : Output) (h : i < l.length) :
    (l.set i v).getD i d = v := by
  rw [List.getD_eq_getElem?_getD, List.getElem?_set_self (by omega), Option.getD_some]

/-- Claim C3 (amended): a position text edit whose text parses as a
negative integer is not ignored: the parsed value is clamped to 0 and
written into the selected output (the prior coordinate is overwritten
with 0), while the typed text is retained in the field. -/
theorem negative_text_edit_clamps_to_zero (env : Env) (st : MangoDisplay)
    (idx : Nat) (val : String) (v : Int)
    (hsel : st.selected_output_idx = some idx) (hlen : idx < st.outputs.length)
    (hp : parseI32 val = some v) (hneg : v < 0) :
    ((MangoDisplay.update env st (Message.XChanged val)).outputs.getD idx
        defaultOutput).position.1 = 0 ∧
    (MangoDisplay.update env st (Message.XChanged val)).x_input = val ∧
    ((MangoDisplay.update env st (Message.YChanged val)).outputs.getD idx
        defaultOutput).position.2 = 0 ∧
    (MangoDisplay.update env st (Message.YChanged val)).y_input = val := by
  have hv : (if v < 0 then (0 : Int) else v) = 0 := if_pos hneg
  simp only [MangoDisplay.update, hsel, hp, hv]
  refine ⟨?_, trivial, ?_, trivial⟩ <;>
    · simp only [modifyOut, dif_pos hlen]
      rw [getD_set_self _ _ _ _ (by simpa using hlen)]

/-- Witness for C3: the amended statement evaluated with the text "-3"
on the selected output at (5, 7). -/
theorem negative_text_edit_clamps_to_zero_witness :
    ((MangoDisplay.update envOk stFive (Message.XChanged "-3")).outputs.getD 0
        defaultOutput).position.1 = 0 ∧
    (MangoDisplay.update envOk stFive (Message.XChanged "-3")).x_input = "-3" ∧
    ((MangoDisplay.update envOk stFive (Message.YChanged "-3")).outputs.getD 0
        defaultOutput).position.2 = 0 ∧
    (MangoDisplay.update envOk stFive (Message.YChanged "-3")).y_input = "-3" :=
  negative_text_edit_clamps_to_zero envOk stFive 0 "-3" (-3) rfl (by decide)
    (by decide) (by decide)

/-- Counterexample to C3 as stated: editing the x field of the selected
output at (5, 7) to the text "-3" does not leave the prior value 5 in
place; the model is mutated to 0. -/
theorem negative_text_edit_counterexample :
    ((MangoDisplay.update envOk stFive (Message.XChanged "-3")).outputs.getD 0
        defaultOutput).position.1 = 0 ∧
    (stFive.outputs.getD 0 defaultOutput).position.1 = 5 ∧
    ((MangoDisplay.update envOk stFive (Message.XChanged "-3")).outputs.getD 0
        defaultOutput).position.1 ≠
      (stFive.outputs.getD 0 defaultOutput).position.1 := by
  decide

/-- Folding max commutes with a max on the start value. -/
lemma foldl_max_comm (xs : List Int) (a b : Int) :
    xs.foldl max (max a b) = max a (xs.foldl max b) := by
  induction xs generalizing b with
  | nil => rfl
  | cons x xs ih =>
    simp only [List.foldl_cons, max_assoc, ih]

/-- The height component of the calculate_layout accumulator loop is the
fold of the logical heights started at the 1080 floor. -/
lemma totalMax_snd (outs : List Output) :
    (totalMax outs).2 = (outs.map logicalH).foldl max 1080 := by
  suffices hgen : ∀ (l : List Output) (w0 h0 : Int),
      (l.foldl (fun acc o =>
        let wh := logical_size o (currentMode o)
        (acc.1 + wh.1, if wh.2 > acc.2 then wh.2 else acc.2)) (w0, h0)).2 =
      (l.map logicalH).foldl max h0 by
    exact hgen outs 0 1080
  intro l
  induction l with
  | nil => intro w0 h0; rfl
  | cons o os ih =>
    intro w0 h0
    simp only [List.foldl_cons, List.map_cons, ih]
    congr 1
    simp only [logicalH]
    omega

/-- Claim C5 (amended): the max_h of the layout projector is the maximum
logical height clamped below by 1080 — the 1080 starting value acts as a
floor on every arrangement, not only on the empty one — and the vertical
world span is span_y = max(max_h * 5/2, 3000). -/
theorem layout_max_h_floor (outs : List Output) :
    (totalMax outs).2 = max 1080 (((outs.map logicalH).max?).getD 1080) ∧
    spanY outs = max (((totalMax outs).2 : Rat) * (5 / 2)) 3000 := by
  constructor
  · rw [totalMax_snd]
    cases outs with
    | nil => rfl
    | cons o os =>
      have hmax : ((o :: os).map logicalH).max? =
          some ((os.map logicalH).foldl max (logicalH o)) := rfl
      rw [hmax, Option.getD_some, List.map_cons, List.foldl_cons]
      have h1080 : (max 1080 (logicalH o) : Int) = max 1080 (logicalH o) := rfl
      rw [foldl_max_comm]
  · rfl

/-- Counterexample to C5 as stated: the non-empty arrangement whose only
output has logical height 720 gets max_h = 1080, not 720. -/
theorem layout_max_h_counterexample :
    logicalH out720 = 720 ∧ (totalMax [out720]).2 = 1080 ∧
    (totalMax [out720]).2 ≠ 720 := by
  decide

/-- Claim C7: the logical size is (width / scale, height / scale)
truncated toward zero, with the components swapped exactly for the four
rotated transforms; in particular the 1920 by 1080 mode gives
(1920, 1080) at scale 1 normal, (1080, 1920) at transform 90 and
(960, 540) at scale 2 normal. -/
theorem logical_size_transform :
    (logical_size outA mode1920 = (1920, 1080) ∧
     logical_size outRot90 mode1920 = (1080, 1920) ∧
     logical_size outScale2 mode1920 = (960, 540)) ∧
    (∀ (o : Output) (cm : OutputMode),
      (o.transform = "90" ∨ o.transform = "270" ∨
        o.transform = "flipped-90" ∨ o.transform = "flipped-270") →
      logical_size o cm =
        ((logical_size { o with transform := "normal" } cm).2,
         (logical_size { o with transform := "normal" } cm).1)) ∧
    (∀ (o : Output) (cm : OutputMode),
      logical_size { o with transform := "normal" } cm =
        (scaleDiv cm.width o.scale, scaleDiv cm.height o.scale)) := by
  refine ⟨by decide, ?_, ?_⟩
  · intro o cm h
    simp only [logical_size]
    rw [if_pos h,
      if_neg (by decide : ¬ (("normal" : String) = "90" ∨ ("normal" : String) = "270" ∨
        ("normal" : String) = "flipped-90" ∨ ("normal" : String) = "flipped-270"))]
  · intro o cm
    simp only [logical_size]
    rw [if_neg (by decide : ¬ (("normal" : String) = "90" ∨ ("normal" : String) = "270" ∨
      ("normal" : String) = "flipped-90" ∨ ("normal" : String) = "flipped-270"))]

/-- Witness for C7: the swap clause applied to the transform-90 output,
and the formula clause applied to the scale-2 output. -/
theorem logical_size_transform_witness :
    logical_size outRot90 mode1920 =
      ((logical_size { outRot90 with transform := "normal" } mode1920).2,
       (logical_size { outRot90 with transform := "normal" } mode1920).1) ∧
    logical_size { outScale2 with transform := "normal" } mode1920 =
      (scaleDiv mode1920.width outScale2.scale,
       scaleDiv mode1920.height outScale2.scale) :=
  ⟨logical_size_transform.2.1 outRot90 mode1920 (Or.inl rfl),
   logical_size_transform.2.2 outScale2 mode1920⟩

/-- On positive scales and nonnegative operands — the whole range the
application uses — scaleDiv is the floor of the exact division, i.e. the
truncation the Rust cast performs. -/
lemma scaleDiv_eq_floor (a : Int) (s : Rat) (ha : 0 ≤ a) (hs : 0 < s) :
    scaleDiv a s = ⌊(a : Rat) / s⌋ := by
  have hnum : 0 < s.num := Rat.num_pos.mpr hs
  have hden : (0 : Int) < (s.den : Int) := by exact_mod_cast s.den_pos
  have hn : 0 ≤ a * (s.den : Int) := mul_nonneg ha hden.le
  have hNA : ((s.num.natAbs : Nat) : Rat) = ((s.num : Int) : Rat) := by
    rw [Int.cast_natAbs, abs_of_nonneg hnum.le]
  have hdiv : (a : Rat) / s = ((a * (s.den : Int) : Int) : Rat) / ((s.num.natAbs : Nat) : Rat) := by
    conv_lhs => rw [← Rat.num_div_den s]
    rw [div_div_eq_mul_div, hNA]
    push_cast
    ring
  rw [hdiv, Rat.floor_intCast_div_natCast]
  simp only [scaleDiv]
  rw [if_pos (mul_nonneg hn hnum.le)]
  have hq : (((a * (s.den : Int)).natAbs / s.num.natAbs : Nat) : Int) =
      ((a * (s.den : Int)).natAbs : Int) / (s.num.natAbs : Int) := by omega
  rw [hq, Int.natAbs_of_nonneg hn]

/-- clamp0 is the identity on nonnegative values. -/
lemma clamp0_of_nonneg (x : Int) (hx : 0 ≤ x) : clamp0 x = x :=
  if_neg (not_lt.mpr hx)

/-- With a single output there is no snap candidate, so both axes fall
back to the grid. -/
lemma snapCore_single (o : Output) (x y : Int) (hx : 0 ≤ x) (hy : 0 ≤ y) :
    snapCore [o] 0 x y = (gridRound x, gridRound y) := by
  have hgx : 0 ≤ gridRound x := by unfold gridRound; rw [if_pos hx]; omega
  have hgy : 0 ≤ gridRound y := by unfold gridRound; rw [if_pos hy]; omega
  simp [snapCore]
  omega

/-- gridRound sends a nonnegative value to a multiple of 10 at distance
at most 5, and no multiple of 10 is closer. -/
lemma gridRound_nearest (x : Int) (hx : 0 ≤ x) :
    gridRound x % 10 = 0 ∧ iabs (gridRound x - x) ≤ 5 ∧
    ∀ m : Int, m % 10 = 0 → iabs (gridRound x - x) ≤ iabs (m - x) := by
  unfold gridRound iabs
  rw [if_pos hx]
  refine ⟨by omega, by split_ifs <;> omega, ?_⟩
  intro m hm
  split_ifs <;> omega

/-- Claim C9: dragging a single output with no other outputs present
snaps each axis to the nearest multiple of 10 logical pixels (no closer
multiple exists); in particular the provisional position (1234, 567)
snaps to (1230, 570). -/
theorem single_output_grid_fallback (o : Output) (x y : Int)
    (hx : 0 ≤ x) (hy : 0 ≤ y) :
    snapMove [o] 0 x y = (gridRound x, gridRound y) ∧
    (gridRound x % 10 = 0 ∧ gridRound y % 10 = 0 ∧
      (∀ m : Int, m % 10 = 0 → iabs (gridRound x - x) ≤ iabs (m - x)) ∧
      (∀ m : Int, m % 10 = 0 → iabs (gridRound y - y) ≤ iabs (m - y))) ∧
    snapMove [o] 0 1234 567 = (1230, 570) := by
  obtain ⟨hx10, _, hxnear⟩ := gridRound_nearest x hx
  obtain ⟨hy10, _, hynear⟩ := gridRound_nearest y hy
  refine ⟨?_, ⟨hx10, hy10, hxnear, hynear⟩, ?_⟩
  · rw [snapMove, clamp0_of_nonneg x hx, clamp0_of_nonneg y hy]
    exact snapCore_single o x y hx hy
  · rw [snapMove, clamp0_of_nonneg 1234 (by omega), clamp0_of_nonneg 567 (by omega),
      snapCore_single o 1234 567 (by omega) (by omega)]
    decide

/-- Witness for C9: the grid fallback evaluated at (1234, 567) for the
concrete output at the origin. -/
theorem single_output_grid_fallback_witness :
    snapMove [outA] 0 1234 567 = (gridRound 1234, gridRound 567) ∧
    (gridRound 1234 % 10 = 0 ∧ gridRound 567 % 10 = 0 ∧
      (∀ m : Int, m % 10 = 0 → iabs (gridRound 1234 - 1234) ≤ iabs (m - 1234)) ∧
      (∀ m : Int, m % 10 = 0 → iabs (gridRound 567 - 567) ≤ iabs (m - 567))) ∧
    snapMove [outA] 0 1234 567 = (1230, 570) :=
  single_output_grid_fallback outA 1234 567 (by omega) (by omega)

/-- The two-output snap scenario on the clamped range: unsnapped x in
[0, 40) puts the right edge of A within the snap threshold of the left
edge of B, and the right-edge-to-left-edge candidate wins. -/
lemma snapCore_AB (x : Int) (h0 : 0 ≤ x) (h40 : x < 40) :
    snapCore [outA, outB] 0 x 0 = (0, 0) := by
  interval_cases x <;> decide

/-- Claim C4 (amended): with outputs A and B of logical size 1920 by
1080 and B at (1920, 0), dragging A so that its unsnapped right edge
lands within 40 logical pixels of the left edge of B — unsnapped x
strictly between -40 and 40, e.g. unsnapped position (20, 0) — yields
snapped position (0, 0), the right edge of A exactly flush with the
left edge of B at x = 1920.  The unsnapped position (1900, 0) quoted by
the spec does not satisfy that premise and snaps to (1920, 0) instead
(see the counterexample). -/
theorem snap_right_edge_flush (x : Int) (hlo : -40 < x) (hhi : x < 40) :
    snapMove [outA, outB] 0 x 0 = (0, 0) := by
  rw [snapMove, show clamp0 0 = 0 from rfl]
  rcases lt_or_le x 0 with hx | hx
  · rw [show clamp0 x = 0 from if_pos hx]
    exact snapCore_AB 0 (by omega) (by omega)
  · rw [clamp0_of_nonneg x hx]
    exact snapCore_AB x hx hhi

/-- Witness for C4: the amended statement evaluated at unsnapped
position (20, 0). -/
theorem snap_right_edge_flush_witness :
    snapMove [outA, outB] 0 20 0 = (0, 0) :=
  snap_right_edge_flush 20 (by omega) (by omega)

/-- Counterexample to C4 as stated: at unsnapped position (1900, 0) the
snap result is (1920, 0) — the left edge of A aligned to the left edge
of B — not (0, 0). -/
theorem snap_example_1900_counterexample :
    snapMove [outA, outB] 0 1900 0 = (1920, 0) ∧
    snapMove [outA, outB] 0 1900 0 ≠ (0, 0) := by
  decide

/-- The invariant of spec section 3: every output has exactly one mode
with current = true. -/
def allOneCurrent (st : MangoDisplay) : Prop :=
  ∀ o ∈ st.outputs, o.modes.countP (fun mo => mo.current) = 1

instance (st : MangoDisplay) : Decidable (allOneCurrent st) :=
  List.decidableBAll _ st.outputs

/-- The index-validity side conditions under which a message follows the
path the running application takes (the user interface only ever emits
in-range indices; out of range, Rust indexing panics and the guarded
ResolutionSelected arm clears every current flag). -/
def goodMsgB (st : MangoDisplay) (m : Message) : Bool :=
  (match st.selected_output_idx with
   | some idx => decide (idx < st.outputs.length)
   | none => true) &&
  match m with
  | .MonitorClicked idx => decide (idx < st.outputs.length)
  | .MonitorPositioned idx _ _ => decide (idx < st.outputs.length)
  | .ResolutionSelected k =>
    match st.selected_output_idx with
    | some idx => decide (k < (st.outputs.getD idx defaultOutput).modes.length)
    | none => true
  | _ => true

/-- Run a message sequence through the update handler. -/
def runMsgs (env : Env) (st : MangoDisplay) (ms : List Message) : MangoDisplay :=
  ms.foldl (MangoDisplay.update env) st

/-- A trace is safe when every message satisfies goodMsgB in the state
it is applied to. -/
def safeTraceB (env : Env) : MangoDisplay → List Message → Bool
  | _, [] => true
  | st, m :: ms => goodMsgB st m && safeTraceB env (MangoDisplay.update env st m) ms

/-- update_inputs_for_selection only touches the text fields. -/
lemma outputs_update_inputs (st : MangoDisplay) :
    (update_inputs_for_selection st).outputs = st.outputs := by
  obtain ⟨outs, sel, xi, yi, si⟩ := st
  unfold update_inputs_for_selection
  cases sel with
  | none => rfl
  | some idx =>
    dsimp only
    split <;> rfl

/-- The state-level normalizer acts on outputs as the list-level one. -/
lemma normalizePositionsApp_outputs (st : MangoDisplay) :
    (normalizePositionsApp st).outputs = normalize_positions st.outputs := by
  simp only [normalizePositionsApp, normalize_positions]
  by_cases hC : (if minXpos st.outputs < 0 then -minXpos st.outputs else 0) > 0 ∨
      (if minYpos st.outputs < 0 then -minYpos st.outputs else 0) > 0
  · rw [if_pos hC, if_pos hC, outputs_update_inputs]
  · rw [if_neg hC, if_neg hC]

/-- all-membership is preserved by set with a good new element. -/
lemma forall_mem_set {p : Output → Prop} (l : List Output) (i : Nat) (v : Output)
    (h : ∀ o ∈ l, p o) (hv : p v) : ∀ o ∈ l.set i v, p o := by
  intro o ho
  rcases List.mem_or_eq_of_mem_set ho with h1 | h1
  · exact h o h1
  · exact h1 ▸ hv

/-- all-membership is preserved by modifyOut when the mutation preserves
the property. -/
lemma forall_mem_modifyOut {p : Output → Prop} (l : List Output) (i : Nat)
    (f : Output → Output) (h : ∀ o ∈ l, p o)
    (hf : ∀ o ∈ l, p o → p (f o)) : ∀ o ∈ modifyOut l i f, p o := by
  unfold modifyOut
  split
  · rename_i hi
    exact forall_mem_set l i _ h (hf _ (l.get_mem i hi) (h _ (l.get_mem i hi)))
  · exact h

/-- getD at an in-range index is the indexed element. -/
lemma getD_eq_get (l : List Output) (i : Nat) (d : Output) (h : i < l.length) :
    l.getD i d = l.get ⟨i, h⟩ := by
  rw [List.getD_eq_getElem?_getD, List.getElem?_eq_getElem h, Option.getD_some]
  rfl

/-- Mapping current := false zeroes the current count. -/
lemma countP_clear_current (l : List OutputMode) :
    (l.map (fun mo => { mo with current := false })).countP (fun mo => mo.current) = 0 := by
  induction l with
  | nil => rfl
  | cons a l ih => simpa [List.countP_cons] using ih

/-- Setting one current mode in a list with no current mode gives
exactly one. -/
lemma countP_set_current (l : List OutputMode) (k : Nat) (v : OutputMode)
    (hl : l.countP (fun mo => mo.current) = 0) (hk : k < l.length)
    (hv : v.current = true) :
    (l.set k v).countP (fun mo => mo.current) = 1 := by
  have h0 : (l.get ⟨k, hk⟩).current = false := by
    have h1 := (List.countP_eq_zero.mp hl) _ (l.get_mem k hk)
    simpa using h1
  rw [List.countP_set _ _ _ _ hk]
  simp only [hl]
  have hgk : l[k] = l.get ⟨k, hk⟩ := rfl
  rw [hgk]
  simp [h0, hv]

/-- An in-range re-selection restores the exactly-one-current invariant
for the touched output. -/
lemma countP_reselect (o : Output) (k : Nat) (hk : k < o.modes.length) :
    (reselectModes k o).modes.countP (fun mo => mo.current) = 1 := by
  unfold reselectModes
  dsimp only
  rw [dif_pos (by simpa using hk)]
  exact countP_set_current _ k _ (countP_clear_current o.modes) (by simpa using hk) rfl

/-- The invariant ignores the text fields and the selection. -/
lemma allOneCurrent_update_inputs (st : MangoDisplay) :
    allOneCurrent (update_inputs_for_selection st) ↔ allOneCurrent st := by
  unfold allOneCurrent
  rw [outputs_update_inputs]

/-- The invariant survives a modifyOut whose mutation preserves it. -/
lemma allOneCurrent_modifyOut (outs : List Output) (sel : Option Nat)
    (xi yi si : String) (idx : Nat) (f : Output → Output)
    (hinv : ∀ o ∈ outs, o.modes.countP (fun mo => mo.current) = 1)
    (hf : ∀ o ∈ outs, o.modes.countP (fun mo => mo.current) = 1 →
      (f o).modes.countP (fun mo => mo.current) = 1) :
    allOneCurrent ⟨modifyOut outs idx f, sel, xi, yi, si⟩ :=
  forall_mem_modifyOut outs idx f hinv hf

/-- Every single update message preserves the exactly-one-current
invariant, provided its indices are in range. -/
lemma update_preserves_allOneCurrent (env : Env) (st : MangoDisplay) (m : Message)
    (hinv : allOneCurrent st) (hgood : goodMsgB st m = true) :
    allOneCurrent (MangoDisplay.update env st m) := by
  obtain ⟨outs, sel, xi, yi, si⟩ := st
  obtain ⟨ares, sres⟩ := env
  have hkeep : ∀ o ∈ outs, o.modes.countP (fun mo => mo.current) = 1 := hinv
  cases m with
  | MonitorClicked idx =>
    simp only [MangoDisplay.update]
    rw [allOneCurrent_update_inputs]
    exact hinv
  | MonitorPositioned idx x y =>
    simp only [MangoDisplay.update]
    split
    · rw [allOneCurrent_update_inputs]
      exact allOneCurrent_modifyOut outs sel xi yi si idx _ hkeep (fun a _ hq => hq)
    · exact allOneCurrent_modifyOut outs sel xi yi si idx _ hkeep (fun a _ hq => hq)
  | XChanged val =>
    cases sel with
    | none => exact hinv
    | some idx =>
      cases hp : parseI32 val with
      | none => simp only [MangoDisplay.update, hp]; exact hinv
      | some v =>
        simp only [MangoDisplay.update, hp]
        exact allOneCurrent_modifyOut outs _ val yi si idx _ hkeep (fun a _ hq => hq)
  | YChanged val =>
    cases sel with
    | none => exact hinv
    | some idx =>
      cases hp : parseI32 val with
      | none => simp only [MangoDisplay.update, hp]; exact hinv
      | some v =>
        simp only [MangoDisplay.update, hp]
        exact allOneCurrent_modifyOut outs _ xi val si idx _ hkeep (fun a _ hq => hq)
  | XInc =>
    cases sel with
    | none => exact hinv
    | some idx =>
      simp only [MangoDisplay.update]
      rw [allOneCurrent_update_inputs]
      exact allOneCurrent_modifyOut outs _ xi yi si idx _ hkeep (fun a _ hq => hq)
  | XDec =>
    cases sel with
    | none => exact hinv
    | some idx =>
      simp only [MangoDisplay.update]
      split
      · rw [allOneCurrent_update_inputs]
        exact allOneCurrent_modifyOut outs _ xi yi si idx _ hkeep (fun a _ hq => hq)
      · exact hinv
  | YInc =>
    cases sel with
    | none => exact hinv
    | some idx =>
      simp only [MangoDisplay.update]
      rw [allOneCurrent_update_inputs]
      exact allOneCurrent_modifyOut outs _ xi yi si idx _ hkeep (fun a _ hq => hq)
  | YDec =>
    cases sel with
    | none => exact hinv
    | some idx =>
      simp only [MangoDisplay.update]
      split
      · rw [allOneCurrent_update_inputs]
        exact allOneCurrent_modifyOut outs _ xi yi si idx _ hkeep (fun a _ hq => hq)
      · exact hinv
  | ScaleChanged val =>
    cases sel with
    | none => exact hinv
    | some idx =>
      cases hp : parseDecimal val with
      | none => simp only [MangoDisplay.update, hp]; exact hinv
      | some v =>
        simp only [MangoDisplay.update, hp]
        split
        · exact allOneCurrent_modifyOut outs _ xi yi val idx _ hkeep (fun a _ hq => hq)
        · exact hinv
  | ScaleInc =>
    cases sel with
    | none => exact hinv
    | some idx =>
      simp only [MangoDisplay.update]
      rw [allOneCurrent_update_inputs]
      exact allOneCurrent_modifyOut outs _ xi yi si idx _ hkeep (fun a _ hq => hq)
  | ScaleDec =>
    cases sel with
    | none => exact hinv
    | some idx =>
      simp only [MangoDisplay.update]
      split
      · rw [allOneCurrent_update_inputs]
        exact allOneCurrent_modifyOut outs _ xi yi si idx _ hkeep (fun a _ hq => hq)
      · exact hinv
  | EnabledToggled val =>
    cases sel with
    | none => exact hinv
    | some idx =>
      simp only [MangoDisplay.update]
      exact allOneCurrent_modifyOut outs _ xi yi si idx _ hkeep (fun a _ hq => hq)
  | ResolutionSelected k =>
    cases sel with
    | none => exact hinv
    | some idx =>
      simp only [goodMsgB, Bool.and_eq_true, decide_eq_true_eq] at hgood
      obtain ⟨hlen, hk⟩ := hgood
      simp only [MangoDisplay.update]
      intro o ho
      rw [show modifyOut outs idx (reselectModes k) =
          outs.set idx (reselectModes k (outs.get ⟨idx, hlen⟩)) from dif_pos hlen] at ho
      refine forall_mem_set outs idx _ hkeep ?_ o ho
      exact countP_reselect _ k (by rwa [getD_eq_get outs idx defaultOutput hlen] at hk)
  | TransformSelected tr =>
    cases sel with
    | none => exact hinv
    | some idx =>
      simp only [MangoDisplay.update]
      exact allOneCurrent_modifyOut outs _ xi yi si idx _ hkeep (fun a _ hq => hq)
  | ApplyClicked =>
    cases ares <;>
    · simp only [MangoDisplay.update]
      intro o ho
      rw [normalizePositionsApp_outputs] at ho
      obtain ⟨dx, dy, hsh⟩ := normalize_positions_shape outs
      rw [hsh] at ho
      rcases List.mem_map.mp ho with ⟨a, ha, rfl⟩
      exact hkeep a ha
  | SaveClicked =>
    cases sres <;>
    · simp only [MangoDisplay.update]
      intro o ho
      rw [normalizePositionsApp_outputs] at ho
      obtain ⟨dx, dy, hsh⟩ := normalize_positions_shape outs
      rw [hsh] at ho
      rcases List.mem_map.mp ho with ⟨a, ha, rfl⟩
      exact hkeep a ha

/-- Claim C6 (amended): if every output starts with exactly one current
mode, then after any sequence of update messages whose indices stay in
range — in particular every ResolutionSelected index is within the
selected output's mode list, which is all the pick list ever emits —
every output still has exactly one current mode.  An out-of-range
ResolutionSelected index instead clears every current flag (see the
counterexample). -/
theorem one_current_mode_invariant (env : Env) (st : MangoDisplay)
    (ms : List Message) (hinv : allOneCurrent st)
    (htr : safeTraceB env st ms = true) :
    allOneCurrent (runMsgs env st ms) := by
  induction ms generalizing st with
  | nil => exact hinv
  | cons m ms ih =>
    rw [safeTraceB, Bool.and_eq_true] at htr
    exact ih _ (update_preserves_allOneCurrent env st m hinv htr.1) htr.2

/-- Output fixture with two modes, the first one current. -/
def outTwoModes : Output :=
  ⟨"DP-8", "", "", (0, 0), 1, "normal", true,
    [⟨1920, 1080, 60, true, false⟩, ⟨1280, 720, 60, false, false⟩]⟩

/-- State fixture holding the two-mode output, selected. -/
def stTwo : MangoDisplay := ⟨[outTwoModes], some 0, "", "", ""⟩

/-- State fixture holding the one-mode output A, selected. -/
def stOne : MangoDisplay := ⟨[outA], some 0, "", "", ""⟩

/-- Witness for C6: a concrete safe trace through re-selection, a
transform change, an enable toggle and an apply leaves exactly one
current mode. -/
theorem one_current_mode_invariant_witness :
    allOneCurrent (runMsgs envOk stTwo
      [Message.ResolutionSelected 1, Message.TransformSelected "90",
       Message.EnabledToggled false, Message.ApplyClicked]) :=
  one_current_mode_invariant envOk stTwo
    [Message.ResolutionSelected 1, Message.TransformSelected "90",
     Message.EnabledToggled false, Message.ApplyClicked]
    (by decide) (by decide)

/-- Counterexample to C6 as stated: the single message
ResolutionSelected 3 on the selected one-mode output leaves no current
mode at all, so not every update-message sequence preserves the
exactly-one-current property. -/
theorem one_current_mode_counterexample :
    ¬ allOneCurrent (runMsgs envOk stOne [Message.ResolutionSelected 3]) := by
  decide

/-- Witness for C2: the amended statement evaluated on the failing
environment and the negative-coordinate state. -/
theorem apply_save_state_is_normalized_prestate_witness :
    MangoDisplay.update envErr stNeg Message.ApplyClicked = normalizePositionsApp stNeg ∧
    MangoDisplay.update envErr stNeg Message.SaveClicked = normalizePositionsApp stNeg :=
  apply_save_state_is_normalized_prestate envErr stNeg

/-- Witness for C5: the amended statement evaluated on the 720-high
single-output arrangement. -/
theorem layout_max_h_floor_witness :
    (totalMax [out720]).2 = max 1080 ((([out720].map logicalH).max?).getD 1080) ∧
    spanY [out720] = max (((totalMax [out720]).2 : Rat) * (5 / 2)) 3000 :=
  layout_max_h_floor [out720]

/-- Witness for C8: idempotence evaluated on the negative-coordinate
arrangement. -/
theorem normalize_positions_idempotent_witness :
    normalize_positions (normalize_positions [outNeg]) = normalize_positions [outNeg] :=
  normalize_positions_idempotent [outNeg]
